import Mathlib

/-!
Verification of the libco cooperative coroutine runtime (src/libco/co.c).

The C program is embedded shallowly as a small-step interpreter:

* `Task` models `struct co` (name, func/arg, status, waiter, jmp_buf, stack).
  A task's code (its entry procedure, and later the continuation saved by
  `setjmp` in `co_yield`) is represented as a `List Instr`: executing an
  instruction consumes the head, and the saved `jmp_buf` context of a
  suspended task is exactly its remaining instruction list, so resuming a
  task continues at the precise yield call site where it suspended.
* `St` models the global state: the malloc heap (ids stand for `struct co`
  pointers; `nextId` models malloc returning a fresh pointer), the pool
  `co_pool` (`slots`/`co_num`/`poller`), and `current`.
* `step` executes one basic block of the C code between control-transfer
  points, following `co_start`, `co_wait`, `co_yield` line by line.
  `schedCount` is a ghost counter incremented each time the scheduling logic
  of `co_yield` runs (i.e. each time control is relinquished); `log` records
  the numbers printed by task bodies.
-/

namespace LibCo

set_option maxRecDepth 1000000

/-- `#define STACK_SIZE 8192` -/
def STACK_SIZE : Nat := 8192

/-- `#define MAX_CO_NUM 128` -/
def MAX_CO_NUM : Nat := 128

/-- `enum co_status` from co.c: CO_NEW, CO_RUNNING, CO_WAITING, CO_DEAD. -/
inductive CoStatus where
  | new
  | running
  | waiting
  | dead
deriving DecidableEq, Repr

/-- Instructions making up a task body.  `print n` stands for an observable
side effect of the entry procedure; `yieldOp` is a call to `co_yield`;
`spawn` is a call to `co_start` with a non-NULL entry `func`; `wait k` is a
call to `co_wait` on the task whose id (malloc pointer) is `k`; `waitLoop k`
is the internal re-check point of `co_wait`'s `while` loop (the program point
the loop's `co_yield` returns to). -/
inductive Instr where
  | print (n : Nat)
  | yieldOp
  | spawn (name : String) (entry : List Instr)
  | wait (k : Nat)
  | waitLoop (k : Nat)

/-- `struct co`.  `hasFunc` records whether `func != NULL`; `body` is the
remaining code of the task (entry procedure for a task that has not started,
saved continuation for a suspended one — the `jmp_buf context`); `stack`
models the `uint8_t stack[STACK_SIZE]` buffer contents. -/
structure Task where
  name : String
  hasFunc : Bool
  status : CoStatus
  waiter : Option Nat
  body : List Instr
  stack : List Nat

/-- Global state: malloc heap plus `struct co_pool co_pool` and
`struct co *current`.  `aborted` records that `assert(next != NULL)` in
`co_yield` failed; `halted` records process exit (the bootstrap task's code
ran out) or undefined behaviour the C program never reaches. -/
structure St where
  heap : List (Nat × Task)
  slots : List (Option Nat)
  co_num : Int
  poller : Nat
  current : Nat
  nextId : Nat
  log : List Nat
  schedCount : Nat
  halted : Bool
  aborted : Bool

/-- Heap lookup: dereference a `struct co *`. -/
def heapGet : List (Nat × Task) → Nat → Option Task
  | [], _ => none
  | (j, t) :: r, k => if j = k then some t else heapGet r k

/-- Update the task at id `k` (no-op if absent). -/
def heapModify : List (Nat × Task) → Nat → (Task → Task) → List (Nat × Task)
  | [], _, _ => []
  | (j, t) :: r, k, f => if j = k then (j, f t) :: r else (j, t) :: heapModify r k f

/-- `free(co)`: remove id `k` from the heap. -/
def heapRemove : List (Nat × Task) → Nat → List (Nat × Task)
  | [], _ => []
  | (j, t) :: r, k => if j = k then heapRemove r k else (j, t) :: heapRemove r k

def setStatus (st : St) (k : Nat) (s : CoStatus) : St :=
  { st with heap := heapModify st.heap k (fun t => { t with status := s }) }

def setWaiter (st : St) (k : Nat) (w : Option Nat) : St :=
  { st with heap := heapModify st.heap k (fun t => { t with waiter := w }) }

def setBody (st : St) (k : Nat) (b : List Instr) : St :=
  { st with heap := heapModify st.heap k (fun t => { t with body := b }) }

/-- Status of the task at id `k`, if allocated. -/
def statusOf (st : St) (k : Nat) : Option CoStatus :=
  (heapGet st.heap k).map Task.status

/-- Saved body (continuation) of the task at id `k`, if allocated. -/
def bodyOf (st : St) (k : Nat) : Option (List Instr) :=
  (heapGet st.heap k).map Task.body

/-- Waiter field of the task at id `k`, if allocated. -/
def waiterOf (st : St) (k : Nat) : Option (Option Nat) :=
  (heapGet st.heap k).map Task.waiter

/-- The loop body of `manage_co`: put `id` into the first NULL slot. -/
def placeFirstEmpty (id : Nat) : List (Option Nat) → Option (List (Option Nat))
  | [] => none
  | none :: r => some (some id :: r)
  | some j :: r => (placeFirstEmpty id r).map (fun r2 => some j :: r2)

/-- `manage_co` (co.c lines 88-98): register `id` in the first empty slot and
increment `co_num`, returning 0; return -1 (pool unchanged) if no slot is
empty. -/
def manage_co (st : St) (id : Nat) : Int × St :=
  match placeFirstEmpty id st.slots with
  | some slots2 => (0, { st with slots := slots2, co_num := st.co_num + 1 })
  | none => (-1, st)

/-- The loop body of `unmanage_co`: clear the first slot equal to `some id`. -/
def clearFirst (id : Nat) : List (Option Nat) → Option (List (Option Nat))
  | [] => none
  | x :: r =>
    if x = some id then some (none :: r)
    else (clearFirst id r).map (fun r2 => x :: r2)

/-- `unmanage_co` (co.c lines 100-110): clear the slot holding `id` and
decrement `co_num`, returning 0; return -1 if `id` is in no slot. -/
def unmanage_co (st : St) (id : Nat) : Int × St :=
  match clearFirst id st.slots with
  | some slots2 => (0, { st with slots := slots2, co_num := st.co_num - 1 })
  | none => (-1, st)

/-- The part of `co_start` (co.c lines 114-137) before the `co_yield` call:
malloc a `struct co` (modelled as always succeeding, at the fresh id
`st.nextId`), initialise its fields (`status = func == NULL ? CO_RUNNING :
CO_NEW`, `waiter = NULL`), `memset` its stack to zero, and call `manage_co`.
As in the C code the result of `manage_co` is discarded.  Returns the value
`co_start` will return (the malloc pointer) together with the new state.
`freshTask` is the `struct co` as `co_start` initialises it. -/
def freshTask (name : String) (hasFunc : Bool) (entry : List Instr) : Task :=
  { name := name
    hasFunc := hasFunc
    status := if hasFunc then CoStatus.new else CoStatus.running
    waiter := none
    body := entry
    stack := List.replicate STACK_SIZE 0 }

def co_start_core (st : St) (name : String) (hasFunc : Bool) (entry : List Instr) :
    Nat × St :=
  let id := st.nextId
  let t : Task := freshTask name hasFunc entry
  let st1 : St := { st with heap := (id, t) :: st.heap, nextId := id + 1 }
  let (_, st2) := manage_co st1 id
  (id, st2)

/-- `co_pool.co[i] != NULL && co_pool.co[i]->status != CO_DEAD`
(the scan condition at co.c lines 158 and 167). -/
def slotLive (st : St) (i : Nat) : Bool :=
  match st.slots.getD i none with
  | none => false
  | some id =>
    match heapGet st.heap id with
    | none => false
    | some t => decide (t.status ≠ CoStatus.dead)

/-- One `for` loop of the scan in `co_yield`: try indices `i, i+1, ...`
(`cnt` of them), returning the first live one. -/
def scanRange (st : St) : Nat → Nat → Option Nat
  | _, 0 => none
  | i, cnt + 1 => if slotLive st i then some i else scanRange st (i + 1) cnt

/-- The two scan loops of `co_yield` (co.c lines 157-173): first indices
`poller .. MAX_CO_NUM-1`, then, if nothing was found, `0 .. poller-1`.
Returns the index of the chosen slot. -/
def sched_pick (st : St) : Option Nat :=
  match scanRange st st.poller (MAX_CO_NUM - st.poller) with
  | some i => some i
  | none => scanRange st 0 st.poller

/-- The scheduling part of `co_yield` (co.c lines 157-199), entered after the
calling task's context has been saved: pick the next slot (abort via
`assert(next != NULL)` if none), set `poller = (i + 1) % MAX_CO_NUM`, then
dispatch: a CO_NEW task is marked CO_RUNNING, made current and cold-started
(`stack_switch_call`); any other chosen task is made current and resumed by
`longjmp` with its status left untouched. -/
def doSchedule (st : St) : St :=
  let st0 := { st with schedCount := st.schedCount + 1 }
  match sched_pick st0 with
  | none => { st0 with aborted := true }
  | some i =>
    let st1 := { st0 with poller := (i + 1) % MAX_CO_NUM }
    match st1.slots.getD i none with
    | none => { st1 with halted := true }
    | some nid =>
      match heapGet st1.heap nid with
      | none => { st1 with halted := true }
      | some t =>
        if t.status = CoStatus.new then
          { setStatus st1 nid CoStatus.running with current := nid }
        else
          { st1 with current := nid }

/-- `unmanage_co(co); free(co);` at the end of `co_wait` (co.c lines 146-147). -/
def co_wait_reap (st : St) (k : Nat) : St :=
  let (_, st1) := unmanage_co st k
  { st1 with heap := heapRemove st1.heap k }

/-- One small step of the runtime: execute the current task's next basic
block up to the next control transfer, exactly following co.c.
* body exhausted, `func != NULL`: the entry procedure returned into
  `stack_switch_call`; co.c line 194 marks `current` CO_DEAD and line 195
  re-enters the scheduler.
* body exhausted, bootstrap task: the host's `main` returned — process exits.
* `print n`: an observable effect of the task body.
* `yieldOp`: `co_yield` — `setjmp` saves the continuation `rest`, then the
  scheduler runs.
* `spawn name entry`: `co_start` with `func != NULL` — after `co_start_core`,
  the `co_yield` at co.c line 134 saves continuation `rest` and schedules.
* `wait k` / `waitLoop k`: `co_wait` (co.c lines 139-149) — set the caller
  CO_WAITING, record it as the target's waiter, then the `while` loop: yield
  (saving the re-check point) while the target is not CO_DEAD, and once it is,
  `unmanage_co` and `free` it and fall out of `co_wait`. -/
def step (st : St) : St :=
  if st.halted ∨ st.aborted then st
  else
    match heapGet st.heap st.current with
    | none => { st with halted := true }
    | some cur =>
      match cur.body with
      | [] =>
        if cur.hasFunc then
          doSchedule (setStatus st st.current CoStatus.dead)
        else
          { st with halted := true }
      | instr :: rest =>
        match instr with
        | Instr.print n =>
          { setBody st st.current rest with log := st.log ++ [n] }
        | Instr.yieldOp =>
          doSchedule (setBody st st.current rest)
        | Instr.spawn name entry =>
          let (_, st1) := co_start_core st name true entry
          doSchedule (setBody st1 st.current rest)
        | Instr.wait k =>
          let st1 := setStatus st st.current CoStatus.waiting
          let st2 := setWaiter st1 k (some st.current)
          match heapGet st2.heap k with
          | none => { st2 with halted := true }
          | some tgt =>
            if tgt.status = CoStatus.dead then
              setBody (co_wait_reap st2 k) st.current rest
            else
              doSchedule (setBody st2 st.current (Instr.waitLoop k :: rest))
        | Instr.waitLoop k =>
          match heapGet st.heap k with
          | none => { st with halted := true }
          | some tgt =>
            if tgt.status = CoStatus.dead then
              setBody (co_wait_reap st k) st.current rest
            else
              doSchedule (setBody st st.current (Instr.waitLoop k :: rest))

/-- Iterate `step`. -/
def runSteps (st : St) : Nat → St
  | 0 => st
  | n + 1 => runSteps (step st) n

/-- The empty state set up at the start of `co_main_init` (co.c lines
210-214): all slots NULL, `co_num = 0`, `poller = 0`. -/
def emptySt : St :=
  { heap := []
    slots := List.replicate MAX_CO_NUM none
    co_num := 0
    poller := 0
    current := 0
    nextId := 0
    log := []
    schedCount := 0
    halted := false
    aborted := false }

/-- `co_main_init` (co.c lines 207-216): create the bootstrap pseudo-task via
`co_start("main", NULL, NULL)` (status CO_RUNNING, no yield since
`func == NULL`) and make it current.  `mainBody` is the code the host's
`main` function will run after initialisation. -/
def co_main_init (mainBody : List Instr) : St :=
  let (id, st1) := co_start_core emptySt "main" false mainBody
  { st1 with current := id }

/-! The deterministic scenario of the spec: the bootstrap task spawns A
(prints 1, yields, prints 2) and B (prints 3, yields, prints 4), then waits
for A and B.  Ids are assigned by malloc order: main = 0, A = 1, B = 2. -/

def bodyA : List Instr := [Instr.print 1, Instr.yieldOp, Instr.print 2]

def bodyB : List Instr := [Instr.print 3, Instr.yieldOp, Instr.print 4]

def scenarioMain : List Instr :=
  [Instr.spawn "A" bodyA, Instr.spawn "B" bodyB, Instr.wait 1, Instr.wait 2]

def scenarioInit : St := co_main_init scenarioMain

/-- Stack buffer of the task at id `k`, if allocated. -/
def stackOf (st : St) (k : Nat) : Option (List Nat) :=
  (heapGet st.heap k).map Task.stack

/-- The value `co_start` returns to its caller, paired with the state at the
point of the `manage_co` call: `co_start` returns NULL (`none`) exactly when
`malloc` fails, which the model treats as never happening; in every other
case — including a full registry — it returns the malloc pointer `co`. -/
def co_start_ret (st : St) (name : String) (hasFunc : Bool) (entry : List Instr) :
    Option Nat × St :=
  let (id, st1) := co_start_core st name hasFunc entry
  (some id, st1)

/-- The registry is full: every slot is occupied. -/
def slotsFull (slots : List (Option Nat)) : Bool :=
  slots.all (fun x => x.isSome)

/-- The status transitions the spec allows:
`New → Running → (Running ↔ Waiting)* → Dead`, plus staying put. -/
def allowedTrans : CoStatus → CoStatus → Bool
  | CoStatus.new, CoStatus.running => true
  | CoStatus.running, CoStatus.waiting => true
  | CoStatus.waiting, CoStatus.running => true
  | CoStatus.running, CoStatus.dead => true
  | CoStatus.waiting, CoStatus.dead => true
  | a, b => a = b

/-- The scan order the spec describes for the scheduler: "scan slots starting
at the cursor to the end, then wrap from the start back to the cursor". -/
def roundRobinOrder (cursor : Nat) : List Nat :=
  List.range' cursor (MAX_CO_NUM - cursor) ++ List.range' 0 cursor

/-- The selection the spec describes: the first non-Dead task in the round
robin order starting at the cursor.  To be compared with `sched_pick`, the
translation of the two scan loops of `co_yield`. -/
def spec_pick (st : St) : Option Nat :=
  (roundRobinOrder st.poller).find? (fun i => slotLive st i)

/-! Concrete states used as witnesses and counterexamples. -/

/-- A full registry (ids 0-127 in slots 0-127); next malloc returns id 200. -/
def fullSt : St :=
  { emptySt with
    slots := (List.range MAX_CO_NUM).map some
    co_num := 128
    nextId := 200 }

/-- A task suspended in CO_WAITING state with an empty saved continuation. -/
def wTask : Task :=
  { name := "w", hasFunc := true, status := CoStatus.waiting, waiter := none
    body := [], stack := [] }

/-- Registry holding only the waiting task `wTask` at id 5, slot 0. -/
def waitingSt : St :=
  { emptySt with
    heap := [(5, wTask)]
    slots := (List.replicate MAX_CO_NUM none).set 0 (some 5)
    co_num := 1
    current := 5 }

/-- A running task about to call `co_yield`. -/
def soloTask : Task :=
  { name := "s", hasFunc := true, status := CoStatus.running, waiter := none
    body := [Instr.yieldOp], stack := [] }

/-- Registry holding only `soloTask` at id 4, slot 0: the caller of
`co_yield` is the sole non-Dead task. -/
def soloSt : St :=
  { emptySt with
    heap := [(4, soloTask)]
    slots := (List.replicate MAX_CO_NUM none).set 0 (some 4)
    co_num := 1
    current := 4 }

/-- A spawned task whose entry procedure has just returned (empty body). -/
def deathTask : Task :=
  { name := "d", hasFunc := true, status := CoStatus.running, waiter := none
    body := [], stack := [] }

/-- Registry holding only `deathTask` at id 7, slot 0, currently running. -/
def deathSt : St :=
  { emptySt with
    heap := [(7, deathTask)]
    slots := (List.replicate MAX_CO_NUM none).set 0 (some 7)
    co_num := 1
    current := 7 }

/-- A target task that is still running (not Dead). -/
def targetTask : Task :=
  { name := "t", hasFunc := true, status := CoStatus.running, waiter := none
    body := [Instr.print 9], stack := [] }

/-- A bootstrap-like task about to call `co_wait` on id 9. -/
def waitCallTask : Task :=
  { name := "m", hasFunc := false, status := CoStatus.running, waiter := none
    body := [Instr.wait 9], stack := [] }

/-- Caller (id 3, slot 0) about to `co_wait` on the live target (id 9, slot 1). -/
def waitCallSt : St :=
  { emptySt with
    heap := [(3, waitCallTask), (9, targetTask)]
    slots := ((List.replicate MAX_CO_NUM none).set 0 (some 3)).set 1 (some 9)
    co_num := 2
    current := 3 }

/-- A caller parked at the re-check point of `co_wait`'s while loop. -/
def waitLoopTask : Task :=
  { name := "m", hasFunc := false, status := CoStatus.waiting, waiter := none
    body := [Instr.waitLoop 9], stack := [] }

/-- Caller (id 3, slot 0) looping in `co_wait` on the live target (id 9,
slot 1). -/
def waitLoopSt : St :=
  { emptySt with
    heap := [(3, waitLoopTask), (9, targetTask)]
    slots := ((List.replicate MAX_CO_NUM none).set 0 (some 3)).set 1 (some 9)
    co_num := 2
    current := 3 }

/-- A bootstrap-like task about to call `co_start`. -/
def spawnTask : Task :=
  { name := "m", hasFunc := false, status := CoStatus.running, waiter := none
    body := [Instr.spawn "A" bodyA], stack := [] }

/-- Registry holding only `spawnTask` at id 0, slot 0. -/
def spawnSt : St :=
  { emptySt with
    heap := [(0, spawnTask)]
    slots := (List.replicate MAX_CO_NUM none).set 0 (some 0)
    co_num := 1
    nextId := 1 }

/-- `spawnTask` after its `co_start` call has saved the continuation and the
scheduler has picked it again. -/
def spawnTaskAfter : Task :=
  { spawnTask with body := [] }

/-! ## Basic lemmas about the heap and the state transformers -/

theorem heapGet_heapModify (h : List (Nat × Task)) (k : Nat) (f : Task → Task)
    (q : Nat) :
    heapGet (heapModify h k f) q =
      if q = k then (heapGet h k).map f else heapGet h q := by
  induction h with
  | nil => simp [heapGet, heapModify]
  | cons p r ih =>
    obtain ⟨j, t⟩ := p
    by_cases hjk : j = k
    · subst hjk
      by_cases hqj : q = j
      · subst hqj
        simp [heapGet, heapModify]
      · have hjq : ¬j = q := fun h => hqj h.symm
        simp [heapGet, heapModify, hqj, hjq]
    · by_cases hjq : j = q
      · subst hjq
        simp [heapGet, heapModify, hjk, Ne.symm hjk]
      · simp [heapGet, heapModify, hjk, hjq, ih]

theorem heapGet_heapRemove (h : List (Nat × Task)) (k q : Nat) :
    heapGet (heapRemove h k) q = if q = k then none else heapGet h q := by
  induction h with
  | nil => simp [heapGet, heapRemove]
  | cons p r ih =>
    obtain ⟨j, t⟩ := p
    by_cases hjk : j = k
    · subst hjk
      by_cases hqj : q = j
      · subst hqj
        simp [heapGet, heapRemove, ih]
      · have hjq : ¬j = q := fun h => hqj h.symm
        simp [heapGet, heapRemove, hqj, hjq, ih]
    · by_cases hjq : j = q
      · subst hjq
        simp [heapGet, heapRemove, hjk, Ne.symm hjk]
      · simp [heapGet, heapRemove, hjk, hjq, ih]

@[simp] theorem statusOf_setBody (st : St) (c : Nat) (b : List Instr) (q : Nat) :
    statusOf (setBody st c b) q = statusOf st q := by
  by_cases hq : q = c
  · subst hq
    simp only [statusOf, setBody, heapGet_heapModify, if_pos rfl]
    cases heapGet st.heap q <;> simp
  · simp [statusOf, setBody, heapGet_heapModify, hq]

@[simp] theorem statusOf_setWaiter (st : St) (c : Nat) (w : Option Nat) (q : Nat) :
    statusOf (setWaiter st c w) q = statusOf st q := by
  by_cases hq : q = c
  · subst hq
    simp only [statusOf, setWaiter, heapGet_heapModify, if_pos rfl]
    cases heapGet st.heap q <;> simp
  · simp [statusOf, setWaiter, heapGet_heapModify, hq]

@[simp] theorem bodyOf_setStatus (st : St) (c : Nat) (s : CoStatus) (q : Nat) :
    bodyOf (setStatus st c s) q = bodyOf st q := by
  by_cases hq : q = c
  · subst hq
    simp only [bodyOf, setStatus, heapGet_heapModify, if_pos rfl]
    cases heapGet st.heap q <;> simp
  · simp [bodyOf, setStatus, heapGet_heapModify, hq]

@[simp] theorem bodyOf_setWaiter (st : St) (c : Nat) (w : Option Nat) (q : Nat) :
    bodyOf (setWaiter st c w) q = bodyOf st q := by
  by_cases hq : q = c
  · subst hq
    simp only [bodyOf, setWaiter, heapGet_heapModify, if_pos rfl]
    cases heapGet st.heap q <;> simp
  · simp [bodyOf, setWaiter, heapGet_heapModify, hq]

@[simp] theorem waiterOf_setBody (st : St) (c : Nat) (b : List Instr) (q : Nat) :
    waiterOf (setBody st c b) q = waiterOf st q := by
  by_cases hq : q = c
  · subst hq
    simp only [waiterOf, setBody, heapGet_heapModify, if_pos rfl]
    cases heapGet st.heap q <;> simp
  · simp [waiterOf, setBody, heapGet_heapModify, hq]

@[simp] theorem waiterOf_setStatus (st : St) (c : Nat) (s : CoStatus) (q : Nat) :
    waiterOf (setStatus st c s) q = waiterOf st q := by
  by_cases hq : q = c
  · subst hq
    simp only [waiterOf, setStatus, heapGet_heapModify, if_pos rfl]
    cases heapGet st.heap q <;> simp
  · simp [waiterOf, setStatus, heapGet_heapModify, hq]

theorem statusOf_setStatus (st : St) (c : Nat) (s : CoStatus) (q : Nat) :
    statusOf (setStatus st c s) q =
      if q = c then (statusOf st c).map (fun _ => s) else statusOf st q := by
  by_cases hq : q = c
  · subst hq
    simp only [statusOf, setStatus, heapGet_heapModify, if_pos rfl]
    cases heapGet st.heap q <;> simp
  · simp [statusOf, setStatus, heapGet_heapModify, hq]

theorem bodyOf_setBody (st : St) (c : Nat) (b : List Instr) (q : Nat) :
    bodyOf (setBody st c b) q =
      if q = c then (bodyOf st c).map (fun _ => b) else bodyOf st q := by
  by_cases hq : q = c
  · subst hq
    simp only [bodyOf, setBody, heapGet_heapModify, if_pos rfl]
    cases heapGet st.heap q <;> simp
  · simp [bodyOf, setBody, heapGet_heapModify, hq]

theorem waiterOf_setWaiter (st : St) (c : Nat) (w : Option Nat) (q : Nat) :
    waiterOf (setWaiter st c w) q =
      if q = c then (waiterOf st c).map (fun _ => w) else waiterOf st q := by
  by_cases hq : q = c
  · subst hq
    simp only [waiterOf, setWaiter, heapGet_heapModify, if_pos rfl]
    cases heapGet st.heap q <;> simp
  · simp [waiterOf, setWaiter, heapGet_heapModify, hq]

@[simp] theorem slots_setBody (st : St) (c : Nat) (b : List Instr) :
    (setBody st c b).slots = st.slots := rfl

@[simp] theorem slots_setStatus (st : St) (c : Nat) (s : CoStatus) :
    (setStatus st c s).slots = st.slots := rfl

@[simp] theorem slots_setWaiter (st : St) (c : Nat) (w : Option Nat) :
    (setWaiter st c w).slots = st.slots := rfl

/-! ## Lemmas about the scheduler scan -/

theorem slotLive_congr {st st2 : St} (hs : st.slots = st2.slots)
    (hh : st.heap = st2.heap) (i : Nat) : slotLive st i = slotLive st2 i := by
  simp [slotLive, hs, hh]

theorem scanRange_congr {st st2 : St} (hs : st.slots = st2.slots)
    (hh : st.heap = st2.heap) :
    ∀ cnt i, scanRange st i cnt = scanRange st2 i cnt := by
  intro cnt
  induction cnt with
  | zero => intro i; rfl
  | succ c ih =>
    intro i
    simp [scanRange, slotLive_congr hs hh, ih]

theorem sched_pick_congr {st st2 : St} (hs : st.slots = st2.slots)
    (hh : st.heap = st2.heap) (hp : st.poller = st2.poller) :
    sched_pick st = sched_pick st2 := by
  simp [sched_pick, hp, scanRange_congr hs hh]

theorem scanRange_eq_find (st : St) :
    ∀ cnt i, scanRange st i cnt =
      (List.range' i cnt).find? (fun j => slotLive st j) := by
  intro cnt
  induction cnt with
  | zero => intro i; rfl
  | succ c ih =>
    intro i
    rw [List.range'_succ]
    by_cases h : slotLive st i
    · simp [scanRange, h, List.find?_cons_of_pos _ h]
    · rw [List.find?_cons_of_neg _ (by simp [h])]
      simp [scanRange, h, ih]

theorem sched_pick_eq_spec (st : St) : sched_pick st = spec_pick st := by
  simp only [sched_pick, spec_pick, roundRobinOrder, scanRange_eq_find,
    List.find?_append]
  cases (List.range' st.poller (MAX_CO_NUM - st.poller)).find?
      (fun j => slotLive st j) <;>
    simp [Option.or]

theorem sched_pick_none_iff (st : St) (hp : st.poller ≤ MAX_CO_NUM) :
    sched_pick st = none ↔ ∀ i, i < MAX_CO_NUM → slotLive st i = false := by
  rw [sched_pick_eq_spec]
  simp only [spec_pick, List.find?_eq_none, roundRobinOrder, List.mem_append]
  constructor
  · intro h i hi
    by_cases hip : st.poller ≤ i
    · have : i ∈ List.range' st.poller (MAX_CO_NUM - st.poller) := by
        simp only [List.mem_range']
        exact ⟨i - st.poller, by omega, by omega⟩
      simpa using h i (Or.inl this)
    · have : i ∈ List.range' 0 st.poller := by
        simp only [List.mem_range']
        exact ⟨i, by omega, by omega⟩
      simpa using h i (Or.inr this)
  · intro h j hj
    have hj128 : j < MAX_CO_NUM := by
      rcases hj with hj | hj <;>
      · simp only [List.mem_range'] at hj
        omega
    simp [h j hj128]

/-! ## Lemmas about `doSchedule` -/

theorem doSchedule_slots (st : St) : (doSchedule st).slots = st.slots := by
  unfold doSchedule
  dsimp only
  repeat' split
  all_goals simp [setStatus]

theorem doSchedule_co_num (st : St) : (doSchedule st).co_num = st.co_num := by
  unfold doSchedule
  dsimp only
  repeat' split
  all_goals simp [setStatus]

theorem doSchedule_log (st : St) : (doSchedule st).log = st.log := by
  unfold doSchedule
  dsimp only
  repeat' split
  all_goals simp [setStatus]

theorem doSchedule_schedCount (st : St) :
    (doSchedule st).schedCount = st.schedCount + 1 := by
  unfold doSchedule
  dsimp only
  repeat' split
  all_goals simp [setStatus]

theorem bodyOf_doSchedule (st : St) (q : Nat) :
    bodyOf (doSchedule st) q = bodyOf st q := by
  unfold doSchedule
  dsimp only
  repeat' split
  all_goals simp only [bodyOf, setStatus, heapGet_heapModify]
  rename_i t heq hnew
  split
  · rename_i hq
    subst hq
    simp [heq]
  · rfl

theorem waiterOf_doSchedule (st : St) (q : Nat) :
    waiterOf (doSchedule st) q = waiterOf st q := by
  unfold doSchedule
  dsimp only
  repeat' split
  all_goals simp only [waiterOf, setStatus, heapGet_heapModify]
  rename_i t heq hnew
  split
  · rename_i hq
    subst hq
    simp [heq]
  · rfl

theorem statusOf_doSchedule (st : St) (q : Nat) :
    statusOf (doSchedule st) q = statusOf st q ∨
      (statusOf st q = some CoStatus.new ∧
        statusOf (doSchedule st) q = some CoStatus.running) := by
  unfold doSchedule
  dsimp only
  repeat' split
  all_goals try (left; rfl)
  rename_i nid hslot xopt t heq hnew
  by_cases hq : q = nid
  · subst hq
    right
    constructor
    · simp [statusOf, heq, hnew]
    · simp [statusOf, setStatus, heapGet_heapModify, heq]
  · left
    simp [statusOf, setStatus, heapGet_heapModify, hq]

theorem statusOf_doSchedule_of_ne_new (st : St) (q : Nat)
    (h : statusOf st q ≠ some CoStatus.new) :
    statusOf (doSchedule st) q = statusOf st q := by
  rcases statusOf_doSchedule st q with h2 | ⟨h2, _⟩
  · exact h2
  · exact absurd h2 h

theorem sched_pick_schedBump (st : St) (n : Nat) :
    sched_pick { st with schedCount := n } = sched_pick st :=
  sched_pick_congr rfl rfl rfl

theorem doSchedule_poller (st : St) (i : Nat) (h : sched_pick st = some i) :
    (doSchedule st).poller = (i + 1) % MAX_CO_NUM := by
  unfold doSchedule
  dsimp only
  rw [sched_pick_schedBump, h]
  dsimp only
  repeat' split
  all_goals simp [setStatus]

theorem doSchedule_aborted_none (st : St) (h : sched_pick st = none) :
    (doSchedule st).aborted = true := by
  unfold doSchedule
  dsimp only
  rw [sched_pick_schedBump, h]

theorem doSchedule_aborted_some (st : St) (i : Nat) (h : sched_pick st = some i) :
    (doSchedule st).aborted = st.aborted := by
  unfold doSchedule
  dsimp only
  rw [sched_pick_schedBump, h]
  dsimp only
  repeat' split
  all_goals simp [setStatus]

theorem doSchedule_current (st : St) (i nid : Nat) (t : Task)
    (hpick : sched_pick st = some i)
    (hslot : st.slots.getD i none = some nid)
    (hget : heapGet st.heap nid = some t) :
    (doSchedule st).current = nid := by
  unfold doSchedule
  dsimp only
  rw [sched_pick_schedBump, hpick]
  dsimp only
  rw [hslot]
  dsimp only
  rw [hget]
  dsimp only
  split
  · simp [setStatus]
  · rfl

theorem doSchedule_heap_nonNew (st : St) (i nid : Nat) (t : Task)
    (hpick : sched_pick st = some i)
    (hslot : st.slots.getD i none = some nid)
    (hget : heapGet st.heap nid = some t)
    (hstat : ¬t.status = CoStatus.new) :
    (doSchedule st).heap = st.heap := by
  unfold doSchedule
  dsimp only
  rw [sched_pick_schedBump, hpick]
  dsimp only
  rw [hslot]
  dsimp only
  rw [hget]
  dsimp only
  rw [if_neg hstat]

/-! ## Claim C4: the round-robin selection -/

/-- C4: for every registry contents and cursor position, the selection in
`co_yield` scans slots from the cursor to the end of the table, then wraps
from slot 0 back to the cursor, chooses the first non-Dead task found
(`sched_pick`, translated from the two loops, equals `spec_pick`, written
from the spec's description), does not distinguish Waiting from Running (a
slot is live exactly when its task's status is not Dead), and advances the
cursor to just past the chosen slot modulo the table capacity. -/
theorem co_yield_scan_follows_spec (st : St) :
    sched_pick st = spec_pick st ∧
    (∀ i, sched_pick st = some i →
      (doSchedule st).poller = (i + 1) % MAX_CO_NUM) ∧
    (∀ i id t, st.slots.getD i none = some id → heapGet st.heap id = some t →
      (slotLive st i = true ↔ t.status ≠ CoStatus.dead)) := by
  refine ⟨sched_pick_eq_spec st, ?_, ?_⟩
  · intro i h
    exact doSchedule_poller st i h
  · intro i id t hslot hget
    unfold slotLive
    rw [hslot]
    dsimp only
    rw [hget]
    simp

/-- Witness for C4 at the concrete one-task registry `soloSt`. -/
theorem co_yield_scan_follows_spec_witness :
    (sched_pick soloSt = spec_pick soloSt ∧
      (doSchedule soloSt).poller = (0 + 1) % MAX_CO_NUM ∧
      (slotLive soloSt 0 = true ↔ soloTask.status ≠ CoStatus.dead)) ∧
    sched_pick soloSt = some 0 :=
  ⟨⟨(co_yield_scan_follows_spec soloSt).1,
    (co_yield_scan_follows_spec soloSt).2.1 0 (by decide),
    (co_yield_scan_follows_spec soloSt).2.2 0 4 soloTask (by decide) rfl⟩,
   by decide⟩

/-! ## Claim C9: the abort on an empty scan -/

/-- C9: `assert(next != NULL)` fires exactly when no slot holds a non-Dead
task; in particular, when at least one non-Dead task is registered the abort
is unreachable.  `st.poller ≤ MAX_CO_NUM` is the cursor-range invariant
maintained by `co_yield` (`poller = (i + 1) % MAX_CO_NUM`) and by
initialisation (`poller = 0`). -/
theorem co_yield_abort_iff_no_runnable (st : St) (hab : st.aborted = false)
    (hp : st.poller ≤ MAX_CO_NUM) :
    (doSchedule st).aborted = true ↔
      ∀ i, i < MAX_CO_NUM → slotLive st i = false := by
  cases hpick : sched_pick st with
  | none =>
    have h1 : (doSchedule st).aborted = true := doSchedule_aborted_none st hpick
    have h2 := (sched_pick_none_iff st hp).mp hpick
    simp only [h1, true_iff]
    exact h2
  | some i =>
    have h1 : (doSchedule st).aborted = st.aborted :=
      doSchedule_aborted_some st i hpick
    rw [h1, hab]
    constructor
    · intro h
      cases h
    · intro hall
      have hnone := (sched_pick_none_iff st hp).mpr hall
      rw [hpick] at hnone
      cases hnone

/-- Witness for C9 at the concrete registry `waitingSt`, which holds one
non-Dead (Waiting) task: the abort is not reached. -/
theorem co_yield_abort_iff_no_runnable_witness :
    waitingSt.aborted = false ∧ waitingSt.poller ≤ MAX_CO_NUM ∧
    (((doSchedule waitingSt).aborted = true) ↔
      ∀ i, i < MAX_CO_NUM → slotLive waitingSt i = false) :=
  ⟨rfl, by decide, co_yield_abort_iff_no_runnable waitingSt rfl (by decide)⟩

/-! ## Claim C2: the deterministic two-task scenario -/

/-- C2: in the scenario where the bootstrap task spawns A (prints 1, yields,
prints 2), spawns B (prints 3, yields, prints 4), then waits for A and B, the
circular scan excluding only Dead tasks produces the output order 1, 3, 2, 4
(and the run completes normally: the process is never aborted). -/
theorem scenario_output_order :
    (runSteps scenarioInit 20).log = [1, 3, 2, 4] ∧
    (runSteps scenarioInit 20).aborted = false := by
  constructor
  · decide
  · decide

/-! ## Claim C1: spawning into a full registry -/

theorem placeFirstEmpty_none_of_full (id : Nat) (s : List (Option Nat))
    (h : slotsFull s = true) : placeFirstEmpty id s = none := by
  induction s with
  | nil => rfl
  | cons x r ih =>
    cases x with
    | none => simp [slotsFull] at h
    | some j =>
      have hr : slotsFull r = true := by
        simp only [slotsFull, List.all_cons, Bool.and_eq_true] at h
        exact h.2
      simp [placeFirstEmpty, ih hr]

/-- C1 counterexample: at the concrete full registry `fullSt`, `co_start`
does NOT report a failure result to its caller — it returns a non-NULL
handle (`some 200`, the malloc pointer), even though `manage_co` failed and
the new task sits in no slot.  This contradicts the claim that capacity
exhaustion is reported as a failure result. -/
theorem co_start_full_counterexample :
    slotsFull fullSt.slots = true ∧
    (co_start_ret fullSt "x" true []).1 ≠ none ∧
    (co_start_ret fullSt "x" true []).1 = some 200 ∧
    (some 200) ∉ (co_start_ret fullSt "x" true []).2.slots := by
  refine ⟨by decide, by decide, by decide, by decide⟩

/-- C1 amended: if `co_start` is called when the registry already holds the
maximum number of tasks, the internal registration (`manage_co`) fails with
-1 and the registry is unchanged — every previously registered task keeps
its slot, status and the occupancy count — and the new task is not
registered; but no failure result is reported to the caller: `co_start`
discards `manage_co`'s -1 and returns a non-NULL handle to the unregistered
task (a NULL failure result is returned only when `malloc` fails). -/
theorem co_start_full_no_failure (st : St) (name : String) (entry : List Instr)
    (hfull : slotsFull st.slots = true)
    (hfresh : (some st.nextId) ∉ st.slots) :
    (co_start_ret st name true entry).1 = some st.nextId ∧
    (co_start_ret st name true entry).2.slots = st.slots ∧
    (co_start_ret st name true entry).2.co_num = st.co_num ∧
    (∀ k, k ≠ st.nextId →
      heapGet (co_start_ret st name true entry).2.heap k = heapGet st.heap k) ∧
    (some st.nextId) ∉ (co_start_ret st name true entry).2.slots ∧
    (∀ id, (manage_co st id).1 = -1 ∧ (manage_co st id).2 = st) := by
  have hpl : ∀ id s2, s2 = st.slots → placeFirstEmpty id s2 = none := by
    intro id s2 hs
    subst hs
    exact placeFirstEmpty_none_of_full id _ hfull
  simp only [co_start_ret, co_start_core, manage_co]
  rw [hpl st.nextId st.slots rfl]
  dsimp only
  refine ⟨trivial, rfl, rfl, ?_, hfresh, ?_⟩
  · intro k hk
    simp [heapGet, Ne.symm hk]
  · intro id
    rw [hpl id st.slots rfl]
    exact ⟨rfl, rfl⟩

/-- Witness for the amended C1 at the concrete full registry `fullSt`. -/
theorem co_start_full_no_failure_witness :
    slotsFull fullSt.slots = true ∧
    (co_start_ret fullSt "y" true []).1 = some fullSt.nextId ∧
    (co_start_ret fullSt "y" true []).2.slots = fullSt.slots ∧
    (manage_co fullSt 7).1 = -1 :=
  ⟨by decide,
   (co_start_full_no_failure fullSt "y" [] (by decide) (by decide)).1,
   (co_start_full_no_failure fullSt "y" [] (by decide) (by decide)).2.1,
   ((co_start_full_no_failure fullSt "y" [] (by decide) (by decide)).2.2.2.2.2 7).1⟩

/-! ## Claim C3: dispatch of a Running or Waiting task -/

/-- C3 counterexample: at `waitingSt` the scheduler dispatches the Waiting
task 5 (it becomes current) but does not set its status to Running — the
status stays Waiting, contradicting the claim's "sets that task's status to
Running". -/
theorem dispatch_keeps_waiting_counterexample :
    (doSchedule waitingSt).current = 5 ∧
    statusOf waitingSt 5 = some CoStatus.waiting ∧
    statusOf (doSchedule waitingSt) 5 = some CoStatus.waiting ∧
    statusOf (doSchedule waitingSt) 5 ≠ some CoStatus.running := by
  refine ⟨by decide, by decide, by decide, by decide⟩

/-- C3 amended: when the scheduler dispatches a chosen task whose status is
Running or Waiting, it sets it as the current task and resumes its
previously captured saved state — the task's record, in particular its saved
continuation, is untouched, so control returns to the exact yield call site
where it last suspended — but it leaves the status unchanged: a Waiting task
is resumed still Waiting, not marked Running. -/
theorem dispatch_nonNew_resumes_unchanged (st : St) (i nid : Nat) (t : Task)
    (hpick : sched_pick st = some i)
    (hslot : st.slots.getD i none = some nid)
    (hget : heapGet st.heap nid = some t)
    (hst : t.status = CoStatus.running ∨ t.status = CoStatus.waiting) :
    (doSchedule st).current = nid ∧
    statusOf (doSchedule st) nid = some t.status ∧
    bodyOf (doSchedule st) nid = some t.body ∧
    (doSchedule st).heap = st.heap := by
  have hnn : ¬t.status = CoStatus.new := by
    rcases hst with h | h <;> simp [h]
  have hheap := doSchedule_heap_nonNew st i nid t hpick hslot hget hnn
  refine ⟨doSchedule_current st i nid t hpick hslot hget, ?_, ?_, hheap⟩
  · simp [statusOf, hheap, hget]
  · simp [bodyOf, hheap, hget]

/-- Witness for the amended C3 at the concrete registry `waitingSt`. -/
theorem dispatch_nonNew_resumes_unchanged_witness :
    sched_pick waitingSt = some 0 ∧
    ((doSchedule waitingSt).current = 5 ∧
      statusOf (doSchedule waitingSt) 5 = some wTask.status ∧
      bodyOf (doSchedule waitingSt) 5 = some wTask.body ∧
      (doSchedule waitingSt).heap = waitingSt.heap) :=
  ⟨by decide,
   dispatch_nonNew_resumes_unchanged waitingSt 0 5 wTask (by decide) (by decide)
     rfl (Or.inr rfl)⟩

/-! ## Further invariance lemmas -/

theorem slotLive_setBody (st : St) (c : Nat) (b : List Instr) (i : Nat) :
    slotLive (setBody st c b) i = slotLive st i := by
  unfold slotLive
  rw [slots_setBody]
  cases hs : st.slots.getD i none with
  | none => rfl
  | some id =>
    dsimp only
    show (match heapGet (setBody st c b).heap id with
      | none => false
      | some t => decide (t.status ≠ CoStatus.dead)) = _
    rw [show (setBody st c b).heap = heapModify st.heap c
      (fun t => { t with body := b }) from rfl, heapGet_heapModify]
    by_cases hid : id = c
    · subst hid
      cases heapGet st.heap id <;> simp
    · rw [if_neg hid]

theorem scanRange_congr_live {st st2 : St}
    (hl : ∀ i, slotLive st i = slotLive st2 i) :
    ∀ cnt i, scanRange st i cnt = scanRange st2 i cnt := by
  intro cnt
  induction cnt with
  | zero => intro i; rfl
  | succ c ih =>
    intro i
    simp [scanRange, hl, ih]

theorem sched_pick_congr_live {st st2 : St}
    (hl : ∀ i, slotLive st i = slotLive st2 i) (hp : st.poller = st2.poller) :
    sched_pick st = sched_pick st2 := by
  simp [sched_pick, hp, scanRange_congr_live hl]

theorem sched_pick_setBody (st : St) (c : Nat) (b : List Instr) :
    sched_pick (setBody st c b) = sched_pick st :=
  sched_pick_congr_live (fun i => slotLive_setBody st c b i) rfl

theorem doSchedule_halted (st : St) (i nid : Nat) (t : Task)
    (hpick : sched_pick st = some i)
    (hslot : st.slots.getD i none = some nid)
    (hget : heapGet st.heap nid = some t) :
    (doSchedule st).halted = st.halted := by
  unfold doSchedule
  dsimp only
  rw [sched_pick_schedBump, hpick]
  dsimp only
  rw [hslot]
  dsimp only
  rw [hget]
  dsimp only
  split
  · simp [setStatus]
  · rfl

/-- What the prefix of `co_start` does to the state: allocates the fresh task
at `st.nextId`, touching nothing except the heap (and the pool, through
`manage_co`). -/
theorem co_start_core_parts (st : St) (name : String) (hasFunc : Bool)
    (entry : List Instr) :
    (co_start_core st name hasFunc entry).1 = st.nextId ∧
    (co_start_core st name hasFunc entry).2.heap =
      (st.nextId, freshTask name hasFunc entry) :: st.heap ∧
    (co_start_core st name hasFunc entry).2.schedCount = st.schedCount ∧
    (co_start_core st name hasFunc entry).2.current = st.current ∧
    (co_start_core st name hasFunc entry).2.log = st.log ∧
    (co_start_core st name hasFunc entry).2.poller = st.poller ∧
    (co_start_core st name hasFunc entry).2.halted = st.halted ∧
    (co_start_core st name hasFunc entry).2.aborted = st.aborted ∧
    (co_start_core st name hasFunc entry).2.nextId = st.nextId + 1 := by
  unfold co_start_core manage_co
  dsimp only
  cases hpl : placeFirstEmpty st.nextId st.slots <;> simp

/-! ## Claim C10: the scan does not exclude the caller -/

/-- C10: the scheduler's scan does not exclude the calling task.  Whenever
the task calling `co_yield` occupies the slot the cursor scan picks (the
first non-Dead slot reached), `co_yield` selects the caller itself and
returns immediately to the same call site: the caller stays current, its
continuation is the code right after the yield, only the cursor advances,
and no other task's record, the log, or the run flags change.  In
particular (see the witness at the one-task registry `soloSt`), a yield
performed when the caller is the only non-Dead task returns directly to the
caller. -/
theorem co_yield_self_return (st : St) (cur : Task) (rest : List Instr) (i : Nat)
    (hrun : st.halted = false) (habt : st.aborted = false)
    (hcur : heapGet st.heap st.current = some cur)
    (hbody : cur.body = Instr.yieldOp :: rest)
    (hpick : sched_pick st = some i)
    (hslot : st.slots.getD i none = some st.current)
    (hstat : cur.status ≠ CoStatus.new) :
    (step st).current = st.current ∧
    bodyOf (step st) st.current = some rest ∧
    (step st).poller = (i + 1) % MAX_CO_NUM ∧
    (∀ k, k ≠ st.current → heapGet (step st).heap k = heapGet st.heap k) ∧
    (step st).log = st.log ∧
    (step st).halted = false ∧
    (step st).aborted = false := by
  have hsteq : step st = doSchedule (setBody st st.current rest) := by
    unfold step
    rw [if_neg (by simp [hrun, habt]), hcur]
    dsimp only
    rw [hbody]
  set st2 := setBody st st.current rest with hst2
  have hpick2 : sched_pick st2 = some i := by
    rw [hst2, sched_pick_setBody, hpick]
  have hslot2 : st2.slots.getD i none = some st.current := by
    rw [hst2, slots_setBody]; exact hslot
  have hget2 : heapGet st2.heap st.current = some { cur with body := rest } := by
    rw [hst2]
    show heapGet (heapModify st.heap st.current _) st.current = _
    rw [heapGet_heapModify, if_pos rfl, hcur]
    rfl
  have hstat2 : ¬Task.status { cur with body := rest } = CoStatus.new := hstat
  have hheap := doSchedule_heap_nonNew st2 i st.current _ hpick2 hslot2 hget2 hstat2
  rw [hsteq]
  refine ⟨doSchedule_current st2 i st.current _ hpick2 hslot2 hget2,
    ?_, ?_, ?_, ?_, ?_, ?_⟩
  · rw [bodyOf_doSchedule]
    rw [hst2, bodyOf_setBody, if_pos rfl]
    simp [bodyOf, hcur]
  · exact doSchedule_poller st2 i hpick2
  · intro k hk
    rw [hheap, hst2]
    show heapGet (heapModify st.heap st.current _) k = _
    rw [heapGet_heapModify, if_neg hk]
  · rw [doSchedule_log, hst2]
    rfl
  · rw [doSchedule_halted st2 i st.current _ hpick2 hslot2 hget2, hst2]
    exact hrun
  · rw [doSchedule_aborted_some st2 i hpick2, hst2]
    exact habt

/-- Witness for C10 at `soloSt`, where the caller of `co_yield` is the only
non-Dead registered task: the yield returns directly to the caller. -/
theorem co_yield_self_return_witness :
    (sched_pick soloSt = some 0 ∧ soloSt.slots.getD 0 none = some soloSt.current) ∧
    ((step soloSt).current = soloSt.current ∧
      bodyOf (step soloSt) soloSt.current = some [] ∧
      (step soloSt).poller = (0 + 1) % MAX_CO_NUM ∧
      (step soloSt).log = soloSt.log ∧
      (step soloSt).halted = false ∧
      (step soloSt).aborted = false) :=
  ⟨⟨by decide, by decide⟩,
   (co_yield_self_return soloSt soloTask [] 0 rfl rfl rfl rfl (by decide)
       (by decide) (by decide)).1,
   (co_yield_self_return soloSt soloTask [] 0 rfl rfl rfl rfl (by decide)
       (by decide) (by decide)).2.1,
   (co_yield_self_return soloSt soloTask [] 0 rfl rfl rfl rfl (by decide)
       (by decide) (by decide)).2.2.1,
   (co_yield_self_return soloSt soloTask [] 0 rfl rfl rfl rfl (by decide)
       (by decide) (by decide)).2.2.2.2.1,
   (co_yield_self_return soloSt soloTask [] 0 rfl rfl rfl rfl (by decide)
       (by decide) (by decide)).2.2.2.2.2.1,
   (co_yield_self_return soloSt soloTask [] 0 rfl rfl rfl rfl (by decide)
       (by decide) (by decide)).2.2.2.2.2.2⟩

/-! ## Claim C7: what `co_start` establishes -/

/-- C7: `co_start` sets the new task's status to New when an entry procedure
is supplied, and to Running directly for the bootstrap task with no entry;
it zero-initialises the task's private stack (`memset`); and when an entry
was supplied it relinquishes control exactly once before returning — the
ghost scheduler counter increases by exactly one across the `co_start` step,
and the saved continuation is the code right after the call, so the task
resumes in `co_start`'s return — while the bootstrap initialisation
(`co_main_init`) never invokes the scheduler. -/
theorem co_start_new_status_and_single_relinquish :
    (∀ st name entry,
      statusOf (co_start_core st name true entry).2
          (co_start_core st name true entry).1 = some CoStatus.new ∧
      stackOf (co_start_core st name true entry).2
          (co_start_core st name true entry).1 =
        some (List.replicate STACK_SIZE 0)) ∧
    (∀ mainBody,
      statusOf (co_main_init mainBody) 0 = some CoStatus.running ∧
      stackOf (co_main_init mainBody) 0 = some (List.replicate STACK_SIZE 0) ∧
      (co_main_init mainBody).schedCount = 0) ∧
    (∀ st cur name entry rest,
      st.halted = false → st.aborted = false →
      heapGet st.heap st.current = some cur →
      cur.body = Instr.spawn name entry :: rest →
      heapGet st.heap st.nextId = none →
      (step st).schedCount = st.schedCount + 1 ∧
      bodyOf (step st) st.current = some rest) := by
  refine ⟨?_, ?_, ?_⟩
  · intro st name entry
    obtain ⟨h1, h2, -⟩ := co_start_core_parts st name true entry
    rw [h1, statusOf, stackOf, h2]
    simp [heapGet, freshTask]
  · intro mainBody
    exact ⟨rfl, rfl, rfl⟩
  · intro st cur name entry rest hrun habt hcur hbody hfresh
    have hne : st.current ≠ st.nextId := by
      intro h
      rw [h, hfresh] at hcur
      cases hcur
    have hsteq : step st =
        doSchedule (setBody (co_start_core st name true entry).2 st.current rest) := by
      unfold step
      rw [if_neg (by simp [hrun, habt]), hcur]
      dsimp only
      rw [hbody]
    obtain ⟨-, hheap, hsched, -, -, -, -, -, -⟩ :=
      co_start_core_parts st name true entry
    rw [hsteq]
    constructor
    · rw [doSchedule_schedCount]
      show (setBody _ _ _).schedCount + 1 = _
      rw [show (setBody (co_start_core st name true entry).2 st.current rest).schedCount
          = (co_start_core st name true entry).2.schedCount from rfl, hsched]
    · rw [bodyOf_doSchedule, bodyOf_setBody, if_pos rfl, bodyOf, hheap]
      simp [heapGet, Ne.symm hne, hcur]

/-- Witness for C7 at the concrete registry `spawnSt` and the bootstrap
initialisation of the scenario. -/
theorem co_start_new_status_and_single_relinquish_witness :
    (statusOf (co_start_core spawnSt "A" true bodyA).2
        (co_start_core spawnSt "A" true bodyA).1 = some CoStatus.new ∧
      stackOf (co_start_core spawnSt "A" true bodyA).2
          (co_start_core spawnSt "A" true bodyA).1 =
        some (List.replicate STACK_SIZE 0)) ∧
    (statusOf (co_main_init scenarioMain) 0 = some CoStatus.running ∧
      (co_main_init scenarioMain).schedCount = 0) ∧
    ((step spawnSt).schedCount = spawnSt.schedCount + 1 ∧
      bodyOf (step spawnSt) spawnSt.current = some []) :=
  ⟨co_start_new_status_and_single_relinquish.1 spawnSt "A" bodyA,
   ⟨(co_start_new_status_and_single_relinquish.2.1 scenarioMain).1,
    (co_start_new_status_and_single_relinquish.2.1 scenarioMain).2.2⟩,
   co_start_new_status_and_single_relinquish.2.2 spawnSt spawnTask "A" bodyA []
     rfl rfl rfl rfl rfl⟩


/-! ## Lemmas about `unmanage_co` and the reap in `co_wait` -/

theorem clearFirst_some_of_mem (id : Nat) (s : List (Option Nat))
    (h : (some id) ∈ s) : ∃ s2, clearFirst id s = some s2 := by
  induction s with
  | nil => cases h
  | cons x r ih =>
    by_cases hx : x = some id
    · exact ⟨none :: r, by simp [clearFirst, hx]⟩
    · have hr : (some id) ∈ r := by
        cases h with
        | head => exact absurd rfl hx
        | tail _ h2 => exact h2
      obtain ⟨r2, hr2⟩ := ih hr
      exact ⟨x :: r2, by simp [clearFirst, hx, hr2]⟩

theorem clearFirst_count (id : Nat) (s : List (Option Nat)) :
    ∀ s2, clearFirst id s = some s2 →
      s2.count (some id) + 1 = s.count (some id) := by
  induction s with
  | nil => intro s2 h; cases h
  | cons x r ih =>
    intro s2 h
    by_cases hx : x = some id
    · rw [clearFirst, if_pos hx] at h
      cases h
      subst hx
      simp [List.count_cons]
    · rw [clearFirst, if_neg hx] at h
      cases hcl : clearFirst id r with
      | none =>
        rw [hcl] at h
        cases h
      | some r2 =>
        rw [hcl] at h
        cases h
        have := ih r2 hcl
        simp only [List.count_cons]
        omega

theorem getD_ne_of_not_mem (s : List (Option Nat)) (k : Nat)
    (h : (some k) ∉ s) : ∀ i, s.getD i none ≠ some k := by
  intro i hi
  by_cases hlen : i < s.length
  · rw [List.getD_eq_getElem s none hlen] at hi
    exact h (hi ▸ List.getElem_mem hlen)
  · rw [List.getD_eq_default s none (by omega)] at hi
    cases hi



/-- Effect of the end of `co_wait` — `unmanage_co(co); free(co);` followed by
falling out of the loop with continuation `rest` — on a registry that holds
the target `k` in exactly one slot. -/
theorem reap_setBody_facts (st : St) (k : Nat) (rest : List Instr) (cur : Task)
    (hk : k ≠ st.current)
    (hcur : heapGet st.heap st.current = some cur)
    (hreg : (some k) ∈ st.slots)
    (hcount : st.slots.count (some k) ≤ 1) :
    heapGet (setBody (co_wait_reap st k) st.current rest).heap k = none ∧
    (∀ i, (setBody (co_wait_reap st k) st.current rest).slots.getD i none ≠ some k) ∧
    (setBody (co_wait_reap st k) st.current rest).co_num = st.co_num - 1 ∧
    bodyOf (setBody (co_wait_reap st k) st.current rest) st.current = some rest ∧
    statusOf (setBody (co_wait_reap st k) st.current rest) st.current =
      some cur.status ∧
    (setBody (co_wait_reap st k) st.current rest).schedCount = st.schedCount := by
  obtain ⟨s2, hs2⟩ := clearFirst_some_of_mem k st.slots hreg
  have hreap : co_wait_reap st k =
      { st with
        heap := heapRemove st.heap k
        slots := s2
        co_num := st.co_num - 1 } := by
    unfold co_wait_reap unmanage_co
    rw [hs2]
  have hcnt0 : s2.count (some k) = 0 := by
    have := clearFirst_count k st.slots s2 hs2
    omega
  have hnotmem : (some k) ∉ s2 := List.count_eq_zero.mp hcnt0
  rw [hreap]
  refine ⟨?_, ?_, rfl, ?_, ?_, rfl⟩
  · show heapGet (heapModify (heapRemove st.heap k) st.current _) k = none
    rw [heapGet_heapModify, if_neg hk, heapGet_heapRemove, if_pos rfl]
  · exact getD_ne_of_not_mem s2 k hnotmem
  · rw [bodyOf_setBody, if_pos rfl]
    show (bodyOf { st with
      heap := heapRemove st.heap k
      slots := s2
      co_num := st.co_num - 1 } st.current).map _ = _
    rw [bodyOf]
    show (Option.map Task.body (heapGet (heapRemove st.heap k) st.current)).map _ = _
    rw [heapGet_heapRemove, if_neg (Ne.symm hk), hcur]
    rfl
  · rw [statusOf_setBody]
    show Option.map Task.status (heapGet (heapRemove st.heap k) st.current) = _
    rw [heapGet_heapRemove, if_neg (Ne.symm hk), hcur]
    rfl


/-! ## Claim C5: the behaviour of `co_wait` -/

/-- C5: `co_wait(task)` sets the calling task's status to Waiting and stores
the caller in the target's single waiter slot; while the target's status is
not Dead it yields (scheduler invoked, the saved continuation is the
`while`-loop re-check point `waitLoop`, and likewise on every later
re-check); once it observes Dead — at entry or at a re-check — it removes
the target from the registry (the target's id is in no slot afterwards and
the occupancy count drops by one) and frees its control record exactly once
(the target's id no longer dereferences in the heap, so no further free of
it is possible), then returns without yielding again. -/
theorem co_wait_behavior :
    (∀ st cur tgt k rest,
      st.halted = false → st.aborted = false →
      heapGet st.heap st.current = some cur →
      cur.body = Instr.wait k :: rest →
      k ≠ st.current →
      heapGet st.heap k = some tgt →
      (some k) ∈ st.slots →
      st.slots.count (some k) ≤ 1 →
      statusOf (step st) st.current = some CoStatus.waiting ∧
      (tgt.status ≠ CoStatus.dead →
        waiterOf (step st) k = some (some st.current) ∧
        bodyOf (step st) st.current = some (Instr.waitLoop k :: rest) ∧
        (step st).schedCount = st.schedCount + 1) ∧
      (tgt.status = CoStatus.dead →
        heapGet (step st).heap k = none ∧
        (∀ i, (step st).slots.getD i none ≠ some k) ∧
        (step st).co_num = st.co_num - 1 ∧
        bodyOf (step st) st.current = some rest ∧
        (step st).schedCount = st.schedCount)) ∧
    (∀ st cur tgt k rest,
      st.halted = false → st.aborted = false →
      heapGet st.heap st.current = some cur →
      cur.body = Instr.waitLoop k :: rest →
      k ≠ st.current →
      heapGet st.heap k = some tgt →
      (some k) ∈ st.slots →
      st.slots.count (some k) ≤ 1 →
      (tgt.status ≠ CoStatus.dead →
        bodyOf (step st) st.current = some (Instr.waitLoop k :: rest) ∧
        (step st).schedCount = st.schedCount + 1) ∧
      (tgt.status = CoStatus.dead →
        heapGet (step st).heap k = none ∧
        (∀ i, (step st).slots.getD i none ≠ some k) ∧
        (step st).co_num = st.co_num - 1 ∧
        bodyOf (step st) st.current = some rest ∧
        (step st).schedCount = st.schedCount)) := by
  constructor
  · intro st cur tgt k rest hrun habt hcur hbody hk htgt hreg hcount
    have hget2 : heapGet (setWaiter (setStatus st st.current CoStatus.waiting) k
        (some st.current)).heap k = some { tgt with waiter := some st.current } := by
      show heapGet (heapModify (heapModify st.heap st.current _) k _) k = _
      rw [heapGet_heapModify, if_pos rfl, heapGet_heapModify, if_neg hk, htgt]
      rfl
    have hstep : step st = (if tgt.status = CoStatus.dead
        then setBody (co_wait_reap (setWaiter (setStatus st st.current
          CoStatus.waiting) k (some st.current)) k) st.current rest
        else doSchedule (setBody (setWaiter (setStatus st st.current
          CoStatus.waiting) k (some st.current)) st.current
          (Instr.waitLoop k :: rest))) := by
      unfold step
      rw [if_neg (by simp [hrun, habt]), hcur]
      dsimp only
      rw [hbody]
      dsimp only
      rw [hget2]
    have hcur2 : heapGet (setWaiter (setStatus st st.current CoStatus.waiting) k
        (some st.current)).heap st.current =
        some { cur with status := CoStatus.waiting } := by
      show heapGet (heapModify (heapModify st.heap st.current _) k _) st.current = _
      rw [heapGet_heapModify, if_neg (Ne.symm hk), heapGet_heapModify, if_pos rfl,
        hcur]
      rfl
    by_cases hdead : tgt.status = CoStatus.dead
    · rw [hstep, if_pos hdead]
      obtain ⟨f1, f2, f3, f4, f5, f6⟩ := reap_setBody_facts
        (setWaiter (setStatus st st.current CoStatus.waiting) k (some st.current))
        k rest { cur with status := CoStatus.waiting } hk hcur2 hreg hcount
      refine ⟨f5, fun hnd => absurd hdead hnd, fun _ => ⟨f1, f2, f3, f4, f6⟩⟩
    · rw [hstep, if_neg hdead]
      have hstat3 : statusOf (setBody (setWaiter (setStatus st st.current
          CoStatus.waiting) k (some st.current)) st.current
          (Instr.waitLoop k :: rest)) st.current = some CoStatus.waiting := by
        rw [statusOf_setBody, statusOf]
        rw [hcur2]
        rfl
      refine ⟨?_, fun _ => ⟨?_, ?_, ?_⟩, fun hd => absurd hd hdead⟩
      · rw [statusOf_doSchedule_of_ne_new _ _ (by rw [hstat3]; intro h; cases h),
          hstat3]
      · rw [waiterOf_doSchedule, waiterOf_setBody, waiterOf_setWaiter, if_pos rfl,
          waiterOf_setStatus, waiterOf, htgt]
        rfl
      · rw [bodyOf_doSchedule, bodyOf_setBody, if_pos rfl, bodyOf_setWaiter,
          bodyOf_setStatus, bodyOf, hcur]
        rfl
      · rw [doSchedule_schedCount]
        rfl
  · intro st cur tgt k rest hrun habt hcur hbody hk htgt hreg hcount
    have hstep : step st = (if tgt.status = CoStatus.dead
        then setBody (co_wait_reap st k) st.current rest
        else doSchedule (setBody st st.current (Instr.waitLoop k :: rest))) := by
      unfold step
      rw [if_neg (by simp [hrun, habt]), hcur]
      dsimp only
      rw [hbody]
      dsimp only
      rw [htgt]
    by_cases hdead : tgt.status = CoStatus.dead
    · rw [hstep, if_pos hdead]
      obtain ⟨f1, f2, f3, f4, f5, f6⟩ := reap_setBody_facts st k rest cur hk hcur
        hreg hcount
      exact ⟨fun hnd => absurd hdead hnd, fun _ => ⟨f1, f2, f3, f4, f6⟩⟩
    · rw [hstep, if_neg hdead]
      refine ⟨fun _ => ⟨?_, ?_⟩, fun hd => absurd hd hdead⟩
      · rw [bodyOf_doSchedule, bodyOf_setBody, if_pos rfl, bodyOf, hcur]
        rfl
      · rw [doSchedule_schedCount]
        rfl

/-- Witness for C5: the caller at `waitCallSt` enters `co_wait` on the live
target 9 and yields into the wait loop; the caller at `waitLoopSt` re-checks
the loop and yields again. -/
theorem co_wait_behavior_witness :
    (statusOf (step waitCallSt) waitCallSt.current = some CoStatus.waiting ∧
      (targetTask.status ≠ CoStatus.dead →
        waiterOf (step waitCallSt) 9 = some (some waitCallSt.current) ∧
        bodyOf (step waitCallSt) waitCallSt.current =
          some (Instr.waitLoop 9 :: []) ∧
        (step waitCallSt).schedCount = waitCallSt.schedCount + 1)) ∧
    (targetTask.status ≠ CoStatus.dead →
      bodyOf (step waitLoopSt) waitLoopSt.current =
        some (Instr.waitLoop 9 :: []) ∧
      (step waitLoopSt).schedCount = waitLoopSt.schedCount + 1) :=
  ⟨⟨(co_wait_behavior.1 waitCallSt waitCallTask targetTask 9 [] rfl rfl rfl rfl
      (by decide) rfl (by decide) (by decide)).1,
    (co_wait_behavior.1 waitCallSt waitCallTask targetTask 9 [] rfl rfl rfl rfl
      (by decide) rfl (by decide) (by decide)).2.1⟩,
   (co_wait_behavior.2 waitLoopSt waitLoopTask targetTask 9 [] rfl rfl rfl rfl
      (by decide) rfl (by decide) (by decide)).1⟩


/-! ## The master case analysis of status changes across one step -/

theorem statusOf_co_wait_reap (x : St) (k tid : Nat) :
    statusOf (co_wait_reap x k) tid = if tid = k then none else statusOf x tid := by
  unfold co_wait_reap unmanage_co
  cases hcl : clearFirst k x.slots with
  | none =>
    dsimp only
    rw [statusOf]
    show Option.map Task.status (heapGet (heapRemove x.heap k) tid) = _
    rw [heapGet_heapRemove]
    by_cases h : tid = k
    · rw [if_pos h, if_pos h]
      rfl
    · rw [if_neg h, if_neg h, statusOf]
  | some s2 =>
    dsimp only
    rw [statusOf]
    show Option.map Task.status (heapGet (heapRemove x.heap k) tid) = _
    rw [heapGet_heapRemove]
    by_cases h : tid = k
    · rw [if_pos h, if_pos h]
      rfl
    · rw [if_neg h, if_neg h, statusOf]

/-- Every status change a single step can make, by exhaustive case analysis
over the runtime's code paths: the scheduler marking the finished current
task Dead (co.c line 194), `co_wait` marking the caller Waiting (line 142),
or the cold-start dispatch marking a New task Running (line 180).  The
freshness hypothesis states that malloc returns a pointer not already in
use. -/
theorem step_status_change (st : St) (tid : Nat) (s s2 : CoStatus)
    (hfresh : heapGet st.heap st.nextId = none)
    (hbefore : statusOf st tid = some s)
    (hafter : statusOf (step st) tid = some s2)
    (hne : s ≠ s2) :
    (tid = st.current ∧ s2 = CoStatus.dead ∧ bodyOf st tid = some [] ∧
      (heapGet st.heap tid).map Task.hasFunc = some true) ∨
    (tid = st.current ∧ s2 = CoStatus.waiting ∧
      (∃ k rest, bodyOf st tid = some (Instr.wait k :: rest))) ∨
    (s = CoStatus.new ∧ s2 = CoStatus.running) := by
  by_cases hhab : (st.halted = true ∨ st.aborted = true)
  · have hstepeq : step st = st := by
      unfold step
      rw [if_pos (by rcases hhab with h | h <;> simp [h])]
    rw [hstepeq, hbefore] at hafter
    exact absurd (Option.some.inj hafter) hne
  cases hcur : heapGet st.heap st.current with
  | none =>
    have hstepeq : step st = { st with halted := true } := by
      unfold step
      rw [if_neg (by push_neg at hhab; simp [hhab.1, hhab.2]), hcur]
    rw [hstepeq] at hafter
    have hsame : statusOf { st with halted := true } tid = statusOf st tid := rfl
    rw [hsame, hbefore] at hafter
    exact absurd (Option.some.inj hafter) hne
  | some cur =>
    have hifneg : ¬(st.halted = true ∨ st.aborted = true) := hhab
    cases hb : cur.body with
    | nil =>
      by_cases hf : cur.hasFunc = true
      · have hstepeq : step st = doSchedule (setStatus st st.current CoStatus.dead) := by
          unfold step
          rw [if_neg (by push_neg at hhab; simp [hhab.1, hhab.2]), hcur]
          dsimp only
          rw [hb]
          dsimp only
          rw [if_pos hf]
        rw [hstepeq] at hafter
        rcases statusOf_doSchedule (setStatus st st.current CoStatus.dead) tid with
          hd | ⟨hd1, hd2⟩
        · rw [hd, statusOf_setStatus] at hafter
          by_cases htc : tid = st.current
          · rw [if_pos htc, ← htc, hbefore] at hafter
            left
            refine ⟨htc, (Option.some.inj hafter).symm, ?_, ?_⟩
            · rw [bodyOf, htc, hcur]
              simp [hb]
            · rw [htc, hcur]
              simp [hf]
          · rw [if_neg htc, hbefore] at hafter
            exact absurd (Option.some.inj hafter) hne
        · rw [hd2] at hafter
          rw [statusOf_setStatus] at hd1
          by_cases htc : tid = st.current
          · rw [if_pos htc, ← htc, hbefore] at hd1
            simp at hd1
          · rw [if_neg htc, hbefore] at hd1
            right
            right
            exact ⟨Option.some.inj hd1, (Option.some.inj hafter).symm⟩
      · have hstepeq : step st = { st with halted := true } := by
          unfold step
          rw [if_neg (by push_neg at hhab; simp [hhab.1, hhab.2]), hcur]
          dsimp only
          rw [hb]
          dsimp only
          rw [if_neg hf]
        rw [hstepeq] at hafter
        have hsame : statusOf { st with halted := true } tid = statusOf st tid := rfl
        rw [hsame, hbefore] at hafter
        exact absurd (Option.some.inj hafter) hne
    | cons instr rest =>
      cases instr with
      | print n =>
        have hstepeq : step st =
            { setBody st st.current rest with log := st.log ++ [n] } := by
          unfold step
          rw [if_neg (by push_neg at hhab; simp [hhab.1, hhab.2]), hcur]
          dsimp only
          rw [hb]
        rw [hstepeq] at hafter
        have hsame : statusOf { setBody st st.current rest with
            log := st.log ++ [n] } tid = statusOf (setBody st st.current rest) tid := rfl
        rw [hsame, statusOf_setBody, hbefore] at hafter
        exact absurd (Option.some.inj hafter) hne
      | yieldOp =>
        have hstepeq : step st = doSchedule (setBody st st.current rest) := by
          unfold step
          rw [if_neg (by push_neg at hhab; simp [hhab.1, hhab.2]), hcur]
          dsimp only
          rw [hb]
        rw [hstepeq] at hafter
        rcases statusOf_doSchedule (setBody st st.current rest) tid with
          hd | ⟨hd1, hd2⟩
        · rw [hd, statusOf_setBody, hbefore] at hafter
          exact absurd (Option.some.inj hafter) hne
        · rw [hd2] at hafter
          rw [statusOf_setBody, hbefore] at hd1
          right
          right
          exact ⟨Option.some.inj hd1, (Option.some.inj hafter).symm⟩
      | spawn name entry =>
        have hstepeq : step st =
            doSchedule (setBody (co_start_core st name true entry).2 st.current rest) := by
          unfold step
          rw [if_neg (by push_neg at hhab; simp [hhab.1, hhab.2]), hcur]
          dsimp only
          rw [hb]
        rw [hstepeq] at hafter
        have htid : tid ≠ st.nextId := by
          intro h
          rw [h, statusOf, hfresh] at hbefore
          cases hbefore
        obtain ⟨-, hheap, -, -, -, -, -, -, -⟩ := co_start_core_parts st name true entry
        have hst1 : statusOf (co_start_core st name true entry).2 tid =
            statusOf st tid := by
          rw [statusOf, statusOf, hheap]
          show (if st.nextId = tid then some (freshTask name true entry) else
            heapGet st.heap tid).map Task.status = _
          rw [if_neg (fun h => htid h.symm)]
        rcases statusOf_doSchedule
            (setBody (co_start_core st name true entry).2 st.current rest) tid with
          hd | ⟨hd1, hd2⟩
        · rw [hd, statusOf_setBody, hst1, hbefore] at hafter
          exact absurd (Option.some.inj hafter) hne
        · rw [hd2] at hafter
          rw [statusOf_setBody, hst1, hbefore] at hd1
          right
          right
          exact ⟨Option.some.inj hd1, (Option.some.inj hafter).symm⟩
      | wait k =>
        have hscrut : heapGet ((setWaiter (setStatus st st.current
            CoStatus.waiting) k (some st.current)).heap) k =
            ((if k = st.current then (heapGet st.heap st.current).map
              (fun t => { t with status := CoStatus.waiting })
              else heapGet st.heap k).map
              (fun t => { t with waiter := some st.current })) := by
          show heapGet (heapModify (heapModify st.heap st.current _) k _) k = _
          rw [heapGet_heapModify, if_pos rfl, heapGet_heapModify]
        have hstat2 : statusOf (setWaiter (setStatus st st.current
            CoStatus.waiting) k (some st.current)) tid =
            (if tid = st.current then (statusOf st st.current).map
              (fun _ => CoStatus.waiting) else statusOf st tid) := by
          rw [statusOf_setWaiter, statusOf_setStatus]
        have hcase2 : tid = st.current →
            (tid = st.current ∧ CoStatus.waiting = CoStatus.waiting ∧
              (∃ k2 rest2, bodyOf st tid = some (Instr.wait k2 :: rest2))) := by
          intro htc
          refine ⟨htc, rfl, k, rest, ?_⟩
          rw [bodyOf, htc, hcur]
          simp [hb]
        have hwaitloop : statusOf (doSchedule (setBody (setWaiter (setStatus st
            st.current CoStatus.waiting) k (some st.current)) st.current
            (Instr.waitLoop k :: rest))) tid = some s2 →
            (tid = st.current ∧ s2 = CoStatus.dead ∧ bodyOf st tid = some [] ∧
              (heapGet st.heap tid).map Task.hasFunc = some true) ∨
            (tid = st.current ∧ s2 = CoStatus.waiting ∧
              (∃ k2 rest2, bodyOf st tid = some (Instr.wait k2 :: rest2))) ∨
            (s = CoStatus.new ∧ s2 = CoStatus.running) := by
          intro haft
          rcases statusOf_doSchedule (setBody (setWaiter (setStatus st
              st.current CoStatus.waiting) k (some st.current)) st.current
              (Instr.waitLoop k :: rest)) tid with hd | ⟨hd1, hd2⟩
          · rw [hd, statusOf_setBody, hstat2] at haft
            by_cases htc : tid = st.current
            · rw [if_pos htc, ← htc, hbefore] at haft
              have hs2 : s2 = CoStatus.waiting := (Option.some.inj haft).symm
              right
              left
              rw [hs2]
              exact hcase2 htc
            · rw [if_neg htc, hbefore] at haft
              exact absurd (Option.some.inj haft) hne
          · rw [hd2] at haft
            rw [statusOf_setBody, hstat2] at hd1
            by_cases htc : tid = st.current
            · rw [if_pos htc, ← htc, hbefore] at hd1
              simp at hd1
            · rw [if_neg htc, hbefore] at hd1
              right
              right
              exact ⟨Option.some.inj hd1, (Option.some.inj haft).symm⟩
        by_cases hkc : k = st.current
        · have hstepeq : step st = doSchedule (setBody (setWaiter (setStatus st
              st.current CoStatus.waiting) k (some st.current)) st.current
              (Instr.waitLoop k :: rest)) := by
            unfold step
            rw [if_neg (by push_neg at hhab; simp [hhab.1, hhab.2]), hcur]
            dsimp only
            rw [hb]
            dsimp only
            rw [hscrut, if_pos hkc, hcur]
            rfl
          rw [hstepeq] at hafter
          exact hwaitloop hafter
        · cases htk : heapGet st.heap k with
          | none =>
            have hstepeq : step st = { (setWaiter (setStatus st st.current
                CoStatus.waiting) k (some st.current)) with halted := true } := by
              unfold step
              rw [if_neg (by push_neg at hhab; simp [hhab.1, hhab.2]), hcur]
              dsimp only
              rw [hb]
              dsimp only
              rw [hscrut, if_neg hkc, htk]
              rfl
            rw [hstepeq] at hafter
            have hsame : statusOf { (setWaiter (setStatus st st.current
                CoStatus.waiting) k (some st.current)) with halted := true } tid =
                statusOf (setWaiter (setStatus st st.current CoStatus.waiting) k
                  (some st.current)) tid := rfl
            rw [hsame, hstat2] at hafter
            by_cases htc : tid = st.current
            · rw [if_pos htc, ← htc, hbefore] at hafter
              have hs2 : s2 = CoStatus.waiting := (Option.some.inj hafter).symm
              right
              left
              rw [hs2]
              exact hcase2 htc
            · rw [if_neg htc, hbefore] at hafter
              exact absurd (Option.some.inj hafter) hne
          | some tgt =>
            by_cases htd : tgt.status = CoStatus.dead
            · have hstepeq : step st = setBody (co_wait_reap (setWaiter
                  (setStatus st st.current CoStatus.waiting) k (some st.current)) k)
                  st.current rest := by
                unfold step
                rw [if_neg (by push_neg at hhab; simp [hhab.1, hhab.2]), hcur]
                dsimp only
                rw [hb]
                dsimp only
                rw [hscrut, if_neg hkc, htk]
                simp only [Option.map_some']
                dsimp only
                rw [if_pos htd]
              rw [hstepeq, statusOf_setBody, statusOf_co_wait_reap] at hafter
              by_cases htkk : tid = k
              · rw [if_pos htkk] at hafter
                cases hafter
              · rw [if_neg htkk, hstat2] at hafter
                by_cases htc : tid = st.current
                · rw [if_pos htc, ← htc, hbefore] at hafter
                  have hs2 : s2 = CoStatus.waiting := (Option.some.inj hafter).symm
                  right
                  left
                  rw [hs2]
                  exact hcase2 htc
                · rw [if_neg htc, hbefore] at hafter
                  exact absurd (Option.some.inj hafter) hne
            · have hstepeq : step st = doSchedule (setBody (setWaiter (setStatus st
                  st.current CoStatus.waiting) k (some st.current)) st.current
                  (Instr.waitLoop k :: rest)) := by
                unfold step
                rw [if_neg (by push_neg at hhab; simp [hhab.1, hhab.2]), hcur]
                dsimp only
                rw [hb]
                dsimp only
                rw [hscrut, if_neg hkc, htk]
                simp only [Option.map_some']
                dsimp only
                rw [if_neg htd]
              rw [hstepeq] at hafter
              exact hwaitloop hafter
      | waitLoop k =>
        cases htk : heapGet st.heap k with
        | none =>
          have hstepeq : step st = { st with halted := true } := by
            unfold step
            rw [if_neg (by push_neg at hhab; simp [hhab.1, hhab.2]), hcur]
            dsimp only
            rw [hb]
            dsimp only
            rw [htk]
          rw [hstepeq] at hafter
          have hsame : statusOf { st with halted := true } tid = statusOf st tid := rfl
          rw [hsame, hbefore] at hafter
          exact absurd (Option.some.inj hafter) hne
        | some tgt =>
          by_cases htd : tgt.status = CoStatus.dead
          · have hstepeq : step st = setBody (co_wait_reap st k) st.current rest := by
              unfold step
              rw [if_neg (by push_neg at hhab; simp [hhab.1, hhab.2]), hcur]
              dsimp only
              rw [hb]
              dsimp only
              rw [htk]
              dsimp only
              rw [if_pos htd]
            rw [hstepeq, statusOf_setBody, statusOf_co_wait_reap] at hafter
            by_cases htkk : tid = k
            · rw [if_pos htkk] at hafter
              cases hafter
            · rw [if_neg htkk, hbefore] at hafter
              exact absurd (Option.some.inj hafter) hne
          · have hstepeq : step st = doSchedule (setBody st st.current
                (Instr.waitLoop k :: rest)) := by
              unfold step
              rw [if_neg (by push_neg at hhab; simp [hhab.1, hhab.2]), hcur]
              dsimp only
              rw [hb]
              dsimp only
              rw [htk]
              dsimp only
              rw [if_neg htd]
            rw [hstepeq] at hafter
            rcases statusOf_doSchedule (setBody st st.current
                (Instr.waitLoop k :: rest)) tid with hd | ⟨hd1, hd2⟩
            · rw [hd, statusOf_setBody, hbefore] at hafter
              exact absurd (Option.some.inj hafter) hne
            · rw [hd2] at hafter
              rw [statusOf_setBody, hbefore] at hd1
              right
              right
              exact ⟨Option.some.inj hd1, (Option.some.inj hafter).symm⟩

/-! ## Claim C6: `co_wait` returns only after the target's entry returned -/

/-- C6: for every task T spawned with an entry procedure, `co_wait(T)`
returns only strictly after T's entry procedure has returned.  Two parts:
(1) as long as the target's status is not Dead, a step of the waiting caller
(at the `co_wait` entry or at its loop re-check) leaves the caller parked at
the loop re-check — `co_wait` has not returned; (2) the only step that moves
any task's status to Dead is the scheduler marking the current task Dead,
which happens exactly when that task's entry code has run to completion
(empty remaining body) and the task has an entry procedure (`func != NULL`).
Together: the wait loop exits only once Dead is observed, and Dead happens
only after the entry procedure returned. -/
theorem co_wait_returns_only_after_dead :
    (∀ st cur tgt k rest,
      st.halted = false → st.aborted = false →
      heapGet st.heap st.current = some cur →
      (cur.body = Instr.wait k :: rest ∨ cur.body = Instr.waitLoop k :: rest) →
      k ≠ st.current →
      heapGet st.heap k = some tgt →
      tgt.status ≠ CoStatus.dead →
      bodyOf (step st) st.current = some (Instr.waitLoop k :: rest)) ∧
    (∀ st tid s,
      heapGet st.heap st.nextId = none →
      statusOf st tid = some s →
      s ≠ CoStatus.dead →
      statusOf (step st) tid = some CoStatus.dead →
      st.current = tid ∧ bodyOf st tid = some [] ∧
      (heapGet st.heap tid).map Task.hasFunc = some true) := by
  constructor
  · intro st cur tgt k rest hrun habt hcur hbody hk htgt hnd
    rcases hbody with hb | hb
    · have hget2 : heapGet (setWaiter (setStatus st st.current CoStatus.waiting)
          k (some st.current)).heap k = some { tgt with waiter := some st.current } := by
        show heapGet (heapModify (heapModify st.heap st.current _) k _) k = _
        rw [heapGet_heapModify, if_pos rfl, heapGet_heapModify, if_neg hk, htgt]
        rfl
      have hstep : step st = doSchedule (setBody (setWaiter (setStatus st
          st.current CoStatus.waiting) k (some st.current)) st.current
          (Instr.waitLoop k :: rest)) := by
        unfold step
        rw [if_neg (by simp [hrun, habt]), hcur]
        dsimp only
        rw [hb]
        dsimp only
        rw [hget2]
        dsimp only
        rw [if_neg hnd]
      rw [hstep, bodyOf_doSchedule, bodyOf_setBody, if_pos rfl, bodyOf_setWaiter,
        bodyOf_setStatus, bodyOf, hcur]
      rfl
    · have hstep : step st = doSchedule (setBody st st.current
          (Instr.waitLoop k :: rest)) := by
        unfold step
        rw [if_neg (by simp [hrun, habt]), hcur]
        dsimp only
        rw [hb]
        dsimp only
        rw [htgt]
        dsimp only
        rw [if_neg hnd]
      rw [hstep, bodyOf_doSchedule, bodyOf_setBody, if_pos rfl, bodyOf, hcur]
      rfl
  · intro st tid s hfresh hbefore hs hafter
    have hne : s ≠ CoStatus.dead := hs
    rcases step_status_change st tid s CoStatus.dead hfresh hbefore hafter hne with
      ⟨htc, -, hb, hfn⟩ | ⟨-, hw, -⟩ | ⟨-, hr⟩
    · exact ⟨htc.symm, hb, hfn⟩
    · cases hw
    · cases hr

/-! ## Claim C8: monotonic status transitions -/

/-- C8: every task's status is exactly one of New, Running, Waiting, Dead
(the `CoStatus` type), and across every operation a step can perform (spawn,
yield, wait, scheduler dispatch, entry completion) the status transitions
follow New → Running → (Running ↔ Waiting)* → Dead and never go backward
from Dead: no step changes the status of a task whose status is Dead.  The
hypotheses are the run-time invariants under which the operations execute:
malloc freshness, and the currently executing task being Running or Waiting
(it was dispatched, so it is not New, and not yet reaped, so not Dead). -/
theorem status_transitions_monotonic (st : St) (tid : Nat) (s s2 : CoStatus)
    (hfresh : heapGet st.heap st.nextId = none)
    (hcurstat : statusOf st st.current = some CoStatus.running ∨
      statusOf st st.current = some CoStatus.waiting)
    (hbefore : statusOf st tid = some s)
    (hafter : statusOf (step st) tid = some s2) :
    allowedTrans s s2 = true ∧ (s = CoStatus.dead → s2 = CoStatus.dead) := by
  by_cases hne : s = s2
  · subst hne
    constructor
    · cases s <;> rfl
    · intro h
      exact h
  · have hs_of_cur : tid = st.current → s = CoStatus.running ∨ s = CoStatus.waiting := by
      intro htc
      rw [← htc] at hcurstat
      rcases hcurstat with h | h <;>
        rw [hbefore] at h
      · exact Or.inl (Option.some.inj h)
      · exact Or.inr (Option.some.inj h)
    rcases step_status_change st tid s s2 hfresh hbefore hafter hne with
      ⟨htc, hdead, -, -⟩ | ⟨htc, hwait, -⟩ | ⟨hnew, hrun⟩
    · subst hdead
      rcases hs_of_cur htc with h | h <;> subst h
      · exact ⟨rfl, fun h2 => by cases h2⟩
      · exact ⟨rfl, fun h2 => by cases h2⟩
    · subst hwait
      rcases hs_of_cur htc with h | h <;> subst h
      · exact ⟨rfl, fun h2 => by cases h2⟩
      · exact ⟨rfl, fun h2 => by cases h2⟩
    · subst hnew
      subst hrun
      exact ⟨rfl, fun h2 => by cases h2⟩

/-- Witness for C6: at `waitCallSt` the caller waits on a live target and
stays parked at the loop; at `deathSt` the step that marks task 7 Dead is
exactly the completion of its entry (empty body, `func != NULL`). -/
theorem co_wait_returns_only_after_dead_witness :
    bodyOf (step waitCallSt) waitCallSt.current = some (Instr.waitLoop 9 :: []) ∧
    (deathSt.current = 7 ∧ bodyOf deathSt 7 = some [] ∧
      (heapGet deathSt.heap 7).map Task.hasFunc = some true) :=
  ⟨co_wait_returns_only_after_dead.1 waitCallSt waitCallTask targetTask 9 []
     rfl rfl rfl (Or.inl rfl) (by decide) rfl (by decide),
   co_wait_returns_only_after_dead.2 deathSt 7 CoStatus.running rfl rfl
     (by decide) rfl⟩

/-- Witness for C8 at `spawnSt`: the running bootstrap task spawns; its own
status transition across the step is the allowed Running → Running. -/
theorem status_transitions_monotonic_witness :
    statusOf spawnSt spawnSt.current = some CoStatus.running ∧
    (allowedTrans CoStatus.running CoStatus.running = true ∧
      (CoStatus.running = CoStatus.dead → CoStatus.running = CoStatus.dead)) :=
  ⟨rfl,
   status_transitions_monotonic spawnSt 0 CoStatus.running CoStatus.running rfl
     (Or.inl rfl) rfl rfl⟩

end LibCo

